import Mathlib

/-!
Verification development for the GTSAM CuSparse solver backend
(`gtsam/linear/CuSparseSolver.cpp`) and the `Sphere2` geometry type
(`gtsam/geometry/Sphere2.h`).

The C++ code is shallowly embedded: the host-side bookkeeping
(`std::map<Key, size_t>` for dimensions and column offsets, the result
`VectorValues`) is modelled with association lists over `Nat` keys, the
device-memory protocol (cudaMalloc / cudaFree / cudaMemcpy and the cuSolver /
cuSparse status checks) is modelled as an explicit state of allocated and
freed device addresses with injectable results for every external call, and
the dense/sparse algebra of the normal-equations reduction is modelled over
`ℚ` with `Fin`-indexed matrices.
-/

/-- Variable identifier (`gtsam::Key`). -/
abbrev Key := Nat

/-- One linear factor, exposing its participating keys together with the
block dimension it reports for each (`factor->begin()..end()` with
`factor->getDim(it)`), in iteration order. -/
abbrev Factor := List (Key × Nat)

/-- A `GaussianFactorGraph`: a sequence of possibly-null shared pointers to
factors (`CuSparseSolver.cpp:181` skips null factors). -/
abbrev FactorGraph := List (Option Factor)

/-- Lookup in the association-list model of `std::map<Key, size_t>`. -/
def mapFind : List (Key × Nat) → Key → Option Nat
  | [], _ => none
  | (k, v) :: rest, q => if q = k then some v else mapFind rest q

/-- `m[k] = v` on a `std::map<Key, size_t>`: replace the binding if the key is
present, otherwise add it. -/
def mapSet : List (Key × Nat) → Key → Nat → List (Key × Nat)
  | [], k, v => [(k, v)]
  | (k0, v0) :: rest, k, v =>
      if k = k0 then (k0, v) :: rest else (k0, v0) :: mapSet rest k v

/-- Reading `m[k]` through `std::map::operator[]`: if the key is absent a
value-initialized entry (`0`) is inserted first; returns the value read and
the possibly-updated map. -/
def mapGetD (m : List (Key × Nat)) (k : Key) : Nat × List (Key × Nat) :=
  match mapFind m k with
  | some v => (v, m)
  | none => (0, mapSet m k 0)

/-- Lookup in the association-list model of the result `VectorValues`. -/
def lookupSeg : List (Key × List ℚ) → Key → Option (List ℚ)
  | [], _ => none
  | (k, v) :: rest, q => if q = k then some v else lookupSeg rest q

/-- First-some choice on options (used to state last-writer-wins). -/
def orDefault (o : Option Nat) (fallback : Option Nat) : Option Nat :=
  match o with
  | some v => some v
  | none => fallback

/-- The dimension attached to `k` by the last `(key, dim)` report in the
list, if any: the "last writer" of the scan. -/
def lastOf : List (Key × Nat) → Key → Option Nat
  | [], _ => none
  | (k, v) :: rest, q =>
      match lastOf rest q with
      | some w => some w
      | none => if q = k then some v else none

/-- All `(key, dim)` reports of the graph, flattened in graph scan order
(null factors contribute nothing). -/
def reportedPairs (gfg : FactorGraph) : List (Key × Nat) :=
  (gfg.map (fun f => f.getD [])).flatten

/-- Inner loop of `CuSparseSolver.cpp:185-187`: record `dims[*it] =
factor->getDim(it)` for every key of one factor, in factor iteration
order. -/
def recordFactor (dims : List (Key × Nat)) : Factor → List (Key × Nat)
  | [] => dims
  | kd :: rest => recordFactor (mapSet dims kd.1 kd.2) rest

/-- The scan of `CuSparseSolver.cpp:181-188` starting from an accumulated
map: factors are visited in graph order and null factors are skipped. -/
def buildDimsFrom (dims : List (Key × Nat)) : FactorGraph → List (Key × Nat)
  | [] => dims
  | none :: rest => buildDimsFrom dims rest
  | some f :: rest => buildDimsFrom (recordFactor dims f) rest

/-- The Variable Dimension Map of `CuSparseSolver.cpp:180-188`: scan all
factors in graph order, skip null factors, and record each reported
dimension, overwriting any earlier report for the same key. -/
def buildDims (gfg : FactorGraph) : List (Key × Nat) :=
  buildDimsFrom [] gfg

/-- The keys of an association-list map, in storage order. -/
def keysOf (m : List (Key × Nat)) : List Key := m.map Prod.fst

/-- The column-offset loop of `CuSparseSolver.cpp:194-200`:
`columnIndices[key] = currentColIndex; currentColIndex += dims[key]` over the
ordering.  Note that `dims[key]` is `operator[]` and hence default-inserts a
`0` entry into `dims` for every ordering key absent from it; the (possibly
grown) `dims` map is returned alongside `columnIndices`. -/
def colIndexLoop : List Key → Nat → List (Key × Nat) → List (Key × Nat) →
    List (Key × Nat) × List (Key × Nat)
  | [], _, cols, dims => (cols, dims)
  | k :: ks, cur, cols, dims =>
      let cols' := mapSet cols k cur
      let p := mapGetD dims k
      colIndexLoop ks (cur + p.1) cols' p.2

/-- `x.vecSegment(off, len)` on a flat host vector. -/
def vecSegment (x : List ℚ) (off len : Nat) : List ℚ := (x.drop off).take len

/-- Consecutive chunks `chunk s d` laid out at the prefix-sum offsets of the
dimension list `ds`, starting at `s`. -/
def chunksFrom {α : Type} (chunk : Nat → Nat → List α) : List Nat → Nat → List (List α)
  | [], _ => []
  | d :: ds, s => chunk s d :: chunksFrom chunk ds (s + d)

/-- The result-remapping of `CuSparseSolver.cpp:180-206`: build `dims` from
the graph, run the column-offset loop over `ordering` (which mutates `dims`
through `operator[]`), then for every entry of the mutated `dims` insert
`x.vecSegment(columnIndices[key], dim)` into the result.  The `operator[]` read
of `columnIndices` yields `0` for an absent key (default-insert), which
`(mapFind cols k).getD 0` reproduces. -/
def remapModel (gfg : FactorGraph) (ordering : List Key) (x : List ℚ) :
    List (Key × List ℚ) :=
  let dims := buildDims gfg
  let cd := colIndexLoop ordering 0 [] dims
  cd.2.map (fun kd => (kd.1, vecSegment x ((mapFind cd.1 kd.1).getD 0) kd.2))

/-- Device-memory state: device addresses handed out by `cudaMalloc` in
order, and the addresses passed to `cudaFree` in order. -/
structure DevState where
  allocated : List Nat
  freed : List Nat
deriving DecidableEq

/-- State at the top of `CuSparseSolver::solve`: nothing allocated, nothing
freed. -/
def DevState.init : DevState := ⟨[], []⟩

/-- A successful `cudaMalloc` returning device address `d`. -/
def devAlloc (d : Nat) (s : DevState) : DevState := ⟨s.allocated ++ [d], s.freed⟩

/-- A `cudaFree(a)` call; `a` is whatever address value the code passed. -/
def devFree (a : Nat) (s : DevState) : DevState := ⟨s.allocated, s.freed ++ [a]⟩

/-- The exceptions `CuSparseSolver.cpp` can throw. -/
inductive SolveErr where
  /-- the bare `std::runtime_error` throws of `EigenSparseToCuSparseTranspose` -/
  | allocFail (message : String)
  /-- a `CHECK_*_ERROR` wrapper throw, carrying the status code and call site -/
  | backend (code : Nat) (location : String)
  /-- the `"ILS in CUDA Solver"` throw, carrying the singularity index -/
  | singular (index : Int)
  /-- the `std::invalid_argument` for the unsupported QR mode -/
  | unsupported (message : String)
deriving DecidableEq

/-- `checkCUDAError` (`CuSparseSolver.cpp:53-57`): a non-`cudaSuccess` code
becomes a thrown error carrying the code and the call site. -/
def checkCUDAError (code : Nat) (location : String) : Option SolveErr :=
  if code ≠ 0 then some (SolveErr.backend code location) else none

/-- `checkCuSolverError` (`CuSparseSolver.cpp:61-65`). -/
def checkCuSolverError (code : Nat) (location : String) : Option SolveErr :=
  if code ≠ 0 then some (SolveErr.backend code location) else none

/-- `checkCuSparseError` (`CuSparseSolver.cpp:69-73`). -/
def checkCuSparseError (code : Nat) (location : String) : Option SolveErr :=
  if code ≠ 0 then some (SolveErr.backend code location) else none

/-- `EigenSparseToCuSparseTranspose` (`CuSparseSolver.cpp:77-109`).
`rowA`, `colA`, `valA` are the host addresses of the caller's out-parameter
slots (the values of the `int **row`, `int **col`, `double **val`
arguments); each `cudaMalloc` result is injected as `Except code address`,
each `cudaMemcpy` result as its status code.  On the second and third
allocation failure the source executes `cudaFree(row)` (and `cudaFree(col)`)
— passing the host slot address itself, not the device address stored
through it — which is modelled verbatim. -/
def EigenSparseToCuSparseTranspose (rowA colA valA : Nat)
    (mallocRow mallocCol mallocVal : Except Nat Nat)
    (memcpyVal memcpyRow memcpyCol : Nat) (s : DevState) :
    Except (SolveErr × DevState) (DevState × Nat × Nat × Nat) :=
  match mallocRow with
  | Except.error e =>
      Except.error (SolveErr.allocFail
        ("cudaMalloc error: out of memory? trying to allocate " ++ toString e), s)
  | Except.ok dRow =>
    let s1 := devAlloc dRow s
    match mallocCol with
    | Except.error _ =>
        Except.error (SolveErr.allocFail "cudaMalloc error: out of memory?",
          devFree rowA s1)
    | Except.ok dCol =>
      let s2 := devAlloc dCol s1
      match mallocVal with
      | Except.error _ =>
          Except.error (SolveErr.allocFail "cudaMalloc error: out of memory?",
            devFree colA (devFree rowA s2))
      | Except.ok dVal =>
        let s3 := devAlloc dVal s2
        match checkCUDAError memcpyVal "CuSparseSolver.cpp : 98" with
        | some e => Except.error (e, s3)
        | none =>
          match checkCUDAError memcpyRow "CuSparseSolver.cpp : 102" with
          | some e => Except.error (e, s3)
          | none =>
            match checkCUDAError memcpyCol "CuSparseSolver.cpp : 105" with
            | some e => Except.error (e, s3)
            | none => Except.ok (s3, dRow, dCol, dVal)

/-- The device phase of the CHOLESKY branch (`CuSparseSolver.cpp:130-174`):
handle/descriptor creation, upload of `AtA`, allocation of `x_gpu` and
`b_gpu`, upload of `b`, the `cusolverSpDcsrlsvchol` call, download of `x`,
the five `cudaFree` calls, and the singularity test — with every external
result injected.  The frees of `CuSparseSolver.cpp:167-171` happen before the
singularity check of line 173, and are skipped by every throw above them. -/
def solveDevice (createStatus descrStatus matTypeStatus : Nat)
    (rowA colA valA : Nat) (mallocRow mallocCol mallocVal : Except Nat Nat)
    (memcpyVal memcpyRow memcpyCol : Nat)
    (mallocX mallocB : Except Nat Nat) (memcpyB : Nat)
    (cholStatus : Nat) (singularity : Int) (memcpyX : Nat) :
    Except (SolveErr × DevState) DevState :=
  match checkCuSolverError createStatus "CuSparseSolver.cpp : 131" with
  | some e => Except.error (e, DevState.init)
  | none =>
    match checkCuSparseError descrStatus "CuSparseSolver.cpp : 134" with
    | some e => Except.error (e, DevState.init)
    | none =>
      match checkCuSparseError matTypeStatus "CuSparseSolver.cpp : 135" with
      | some e => Except.error (e, DevState.init)
      | none =>
        match EigenSparseToCuSparseTranspose rowA colA valA mallocRow mallocCol
            mallocVal memcpyVal memcpyRow memcpyCol DevState.init with
        | Except.error e => Except.error e
        | Except.ok (s3, dRow, dCol, dVal) =>
          match mallocX with
          | Except.error e =>
              Except.error (SolveErr.backend e "CuSparseSolver.cpp : 144", s3)
          | Except.ok dX =>
            let s4 := devAlloc dX s3
            match mallocB with
            | Except.error e =>
                Except.error (SolveErr.backend e "CuSparseSolver.cpp : 145", s4)
            | Except.ok dB =>
              let s5 := devAlloc dB s4
              match checkCUDAError memcpyB "CuSparseSolver.cpp : 147" with
              | some e => Except.error (e, s5)
              | none =>
                match checkCuSolverError cholStatus "CuSparseSolver.cpp : 158" with
                | some e => Except.error (e, s5)
                | none =>
                  match checkCUDAError memcpyX "CuSparseSolver.cpp : 164" with
                  | some e => Except.error (e, s5)
                  | none =>
                    let s6 := devFree dX (devFree dB (devFree dCol
                      (devFree dRow (devFree dVal s5))))
                    if singularity ≠ -1 then
                      Except.error (SolveErr.singular singularity, s6)
                    else Except.ok s6

/-- The solver-mode selector of `CuSparseSolver.h`. -/
inductive CuSparseSolverType where
  | QR
  | CHOLESKY
deriving DecidableEq

/-- The solver object: a mode and an ordering, set by the constructor and
never written by `solve`. -/
structure CuSparseSolver where
  solverType : CuSparseSolverType
  ordering : List Key

/-- `CuSparseSolver::solve` (`CuSparseSolver.cpp:111-210`).  The QR mode is
rejected by the very first statement, before any assembly or device work.
In CHOLESKY mode the device phase runs with injected external results, and
on full success the downloaded flat solution `x` is remapped into
per-variable segments. -/
def CuSparseSolver.solve (self : CuSparseSolver) (gfg : FactorGraph) (x : List ℚ)
    (createStatus descrStatus matTypeStatus : Nat)
    (rowA colA valA : Nat) (mallocRow mallocCol mallocVal : Except Nat Nat)
    (memcpyVal memcpyRow memcpyCol : Nat)
    (mallocX mallocB : Except Nat Nat) (memcpyB : Nat)
    (cholStatus : Nat) (singularity : Int) (memcpyX : Nat) :
    Except (SolveErr × DevState) (List (Key × List ℚ) × DevState) :=
  match self.solverType with
  | CuSparseSolverType.QR =>
      Except.error (SolveErr.unsupported "This solver does not support QR.",
        DevState.init)
  | CuSparseSolverType.CHOLESKY =>
      match solveDevice createStatus descrStatus matTypeStatus rowA colA valA
          mallocRow mallocCol mallocVal memcpyVal memcpyRow memcpyCol
          mallocX mallocB memcpyB cholStatus singularity memcpyX with
      | Except.error e => Except.error e
      | Except.ok s => Except.ok (remapModel gfg self.ordering x, s)

/-- `A = Ab.block(0, 0, rows, cols - 1)` (`CuSparseSolver.cpp:119`): the
first `c` columns of the augmented system. -/
def assembleA (r c : Nat) (Ab : Fin r → Fin (c + 1) → ℚ) : Fin r → Fin c → ℚ :=
  fun i j => Ab i (Fin.castSucc j)

/-- `At = A.transpose()` (`CuSparseSolver.cpp:120`). -/
def transposeM {r c : Nat} (M : Fin r → Fin c → ℚ) : Fin c → Fin r → ℚ :=
  fun j i => M i j

/-- `b = At * Ab.col(cols - 1)` (`CuSparseSolver.cpp:121`): the reduced
right-hand side. -/
def reduceAtb (r c : Nat) (Ab : Fin r → Fin (c + 1) → ℚ) : Fin c → ℚ :=
  fun j => ∑ i, transposeM (assembleA r c Ab) j i * Ab i (Fin.last c)

/-- `AtA.selfadjointView<Eigen::Upper>().rankUpdate(At)` on a zero-initialized
`AtA` (`CuSparseSolver.cpp:123-125`): stores `M * Mᵀ` in the upper-triangular
entries, leaving the strict lower triangle unstored (zero). -/
def rankUpdateUpper {n r : Nat} (M : Fin n → Fin r → ℚ) : Fin n → Fin n → ℚ :=
  fun i j => if (i : Nat) ≤ (j : Nat) then ∑ k, M i k * M j k else 0

/-- Modelled from the spec: `gtsam::Point3` (its header is not part of the
two source files) is a 3-vector over the reals with the Euclidean norm; the
spec's §1 treats manifold geometry types as independent 3D value types. -/
structure Point3 where
  x : ℝ
  y : ℝ
  z : ℝ

/-- Modelled from the spec: `Point3::norm`, the Euclidean norm. -/
noncomputable def Point3.norm (p : Point3) : ℝ :=
  Real.sqrt (p.x ^ 2 + p.y ^ 2 + p.z ^ 2)

/-- Modelled from the spec: `operator/` of `Point3` by a scalar,
componentwise. -/
noncomputable def Point3.scalarDiv (p : Point3) (c : ℝ) : Point3 :=
  ⟨p.x / c, p.y / c, p.z / c⟩

/-- `Sphere2` (`Sphere2.h:27-47`): a struct holding the point `p_`. -/
structure Sphere2 where
  p_ : Point3

/-- The default constructor (`Sphere2.h:32-34`): `p_ = (1, 0, 0)`. -/
def Sphere2.defaultSphere : Sphere2 := ⟨⟨1, 0, 0⟩⟩

/-- The `Point3` constructor (`Sphere2.h:45-47`): `p_ = p / p.norm()`, with
no guard against a zero norm. -/
noncomputable def Sphere2.ofPoint3 (p : Point3) : Sphere2 :=
  ⟨p.scalarDiv p.norm⟩

/-- The copy constructor (`Sphere2.h:37-39`): `p_ = s.p_ / s.p_.norm()`
(it renormalizes rather than copying bitwise). -/
noncomputable def Sphere2.copy (s : Sphere2) : Sphere2 :=
  ⟨s.p_.scalarDiv s.p_.norm⟩

/-- The values reachable through the public constructors of `Sphere2`, where
the from-`Point3` constructor is only invoked on inputs of nonzero norm. -/
inductive Sphere2.Constructed : Sphere2 → Prop where
  | defaultCtor : Sphere2.Constructed Sphere2.defaultSphere
  | fromPoint (p : Point3) (h : Point3.norm p ≠ 0) :
      Sphere2.Constructed (Sphere2.ofPoint3 p)
  | copyCtor (s : Sphere2) (h : Sphere2.Constructed s) :
      Sphere2.Constructed (Sphere2.copy s)

/-- C1: the claim states that when one of the three device allocations of
`EigenSparseToCuSparseTranspose` fails, every earlier device allocation is
released, nothing later exists, and nothing is freed twice.  The code's
cleanup branches execute `cudaFree(row)` / `cudaFree(col)` on the host
out-parameter pointers themselves instead of the device addresses stored
through them (`*row` / `*col`).  Evaluated at a failure of the second
(column-index) allocation with host slots `1001/1002/1003` and first device
address `42`: the only `cudaFree` call targets `1001`, the device allocation
`42` is never freed (it leaks), and the freed address was never a device
allocation. -/
theorem upload_alloc_failure_frees_wrong_address :
    EigenSparseToCuSparseTranspose 1001 1002 1003
        (Except.ok 42) (Except.error 2) (Except.ok 43) 0 0 0 DevState.init
      = Except.error (SolveErr.allocFail "cudaMalloc error: out of memory?",
          DevState.mk [42] [1001])
    ∧ (42 : Nat) ∈ [42] ∧ (42 : Nat) ∉ [1001] ∧ (1001 : Nat) ∉ [42] :=
  ⟨rfl, by decide, by decide, by decide⟩

/-- C4: requesting the QR mode is rejected by the first statement of
`CuSparseSolver::solve`, for every input graph (the result does not depend on
`gfg` at all), before any assembly or device interaction: the device state
reported with the error is the initial one, with no allocation and no free. -/
theorem qr_mode_rejected (ord : List Key) (gfg : FactorGraph) (x : List ℚ)
    (cs ds ms rowA colA valA : Nat) (m1 m2 m3 : Except Nat Nat) (c1 c2 c3 : Nat)
    (m4 m5 : Except Nat Nat) (c4 cholStatus : Nat) (sing : Int) (c5 : Nat) :
    CuSparseSolver.solve ⟨CuSparseSolverType.QR, ord⟩ gfg x cs ds ms rowA colA valA
        m1 m2 m3 c1 c2 c3 m4 m5 c4 cholStatus sing c5
      = Except.error (SolveErr.unsupported "This solver does not support QR.",
          DevState.init)
    ∧ DevState.init.allocated = [] ∧ DevState.init.freed = [] :=
  ⟨rfl, rfl, rfl⟩

/-- C5: for the augmented system `[A|b]` with `r` rows and `c+1` columns,
the code's `A` is the first-`c`-columns block, the reduced right-hand side
`b = At * Ab.col(c)` equals `transpose(A) · b`, and the symmetric rank
update `rankUpdate(At)` stored in the upper triangle equals the
upper-triangular part of `transpose(A) · A` (zero below the diagonal). -/
theorem normal_equations_reduction (r c : Nat) (Ab : Fin r → Fin (c + 1) → ℚ) :
    (∀ i j, assembleA r c Ab i j = Ab i (Fin.castSucc j))
    ∧ (∀ j, reduceAtb r c Ab j = ∑ i, assembleA r c Ab i j * Ab i (Fin.last c))
    ∧ (∀ i j, rankUpdateUpper (transposeM (assembleA r c Ab)) i j
        = if (i : Nat) ≤ (j : Nat)
          then ∑ k, transposeM (assembleA r c Ab) i k * assembleA r c Ab k j
          else 0) :=
  ⟨fun _ _ => rfl, fun _ => rfl, fun _ _ => rfl⟩

/-- C2 counterexample: with every call up to the sparse Cholesky primitive
succeeding and the primitive returning status 3, `solve` throws the wrapped
status (code 3, call site line 158) while the five device buffers allocated
earlier in the same call are all still allocated and the free list is empty —
so it is not the case that every earlier device buffer is released before the
exception propagates. -/
theorem solve_backend_error_leaks_buffers :
    CuSparseSolver.solve ⟨CuSparseSolverType.CHOLESKY, []⟩ [] [] 0 0 0 1001 1002 1003
        (Except.ok 10) (Except.ok 11) (Except.ok 12) 0 0 0
        (Except.ok 13) (Except.ok 14) 0 3 (-1) 0
      = Except.error (SolveErr.backend 3 "CuSparseSolver.cpp : 158",
          DevState.mk [10, 11, 12, 13, 14] [])
    ∧ (10 : Nat) ∈ [10, 11, 12, 13, 14] ∧ (10 : Nat) ∉ ([] : List Nat) :=
  ⟨rfl, by decide, by decide⟩

/-- C2 amended: every memcpy failure and every non-success status of the
sparse Cholesky primitive propagates as an exception carrying the status code
and the call site, but no device buffer acquired earlier in the same solve
call is released before the exception propagates: the state carried out with
the error has an empty free list (the `cudaFree` block of lines 167-171 is
skipped by the throw). -/
theorem solve_external_error_wrapped_no_release
    (ord : List Key) (gfg : FactorGraph) (x : List ℚ)
    (rowA colA valA d1 d2 d3 d4 d5 : Nat) (cv cr cc cb ch cx : Nat) :
    (cv ≠ 0 → CuSparseSolver.solve ⟨CuSparseSolverType.CHOLESKY, ord⟩ gfg x 0 0 0
        rowA colA valA (Except.ok d1) (Except.ok d2) (Except.ok d3) cv 0 0
        (Except.ok d4) (Except.ok d5) 0 0 (-1) 0
      = Except.error (SolveErr.backend cv "CuSparseSolver.cpp : 98",
          DevState.mk [d1, d2, d3] []))
    ∧ (cr ≠ 0 → CuSparseSolver.solve ⟨CuSparseSolverType.CHOLESKY, ord⟩ gfg x 0 0 0
        rowA colA valA (Except.ok d1) (Except.ok d2) (Except.ok d3) 0 cr 0
        (Except.ok d4) (Except.ok d5) 0 0 (-1) 0
      = Except.error (SolveErr.backend cr "CuSparseSolver.cpp : 102",
          DevState.mk [d1, d2, d3] []))
    ∧ (cc ≠ 0 → CuSparseSolver.solve ⟨CuSparseSolverType.CHOLESKY, ord⟩ gfg x 0 0 0
        rowA colA valA (Except.ok d1) (Except.ok d2) (Except.ok d3) 0 0 cc
        (Except.ok d4) (Except.ok d5) 0 0 (-1) 0
      = Except.error (SolveErr.backend cc "CuSparseSolver.cpp : 105",
          DevState.mk [d1, d2, d3] []))
    ∧ (cb ≠ 0 → CuSparseSolver.solve ⟨CuSparseSolverType.CHOLESKY, ord⟩ gfg x 0 0 0
        rowA colA valA (Except.ok d1) (Except.ok d2) (Except.ok d3) 0 0 0
        (Except.ok d4) (Except.ok d5) cb 0 (-1) 0
      = Except.error (SolveErr.backend cb "CuSparseSolver.cpp : 147",
          DevState.mk [d1, d2, d3, d4, d5] []))
    ∧ (ch ≠ 0 → CuSparseSolver.solve ⟨CuSparseSolverType.CHOLESKY, ord⟩ gfg x 0 0 0
        rowA colA valA (Except.ok d1) (Except.ok d2) (Except.ok d3) 0 0 0
        (Except.ok d4) (Except.ok d5) 0 ch (-1) 0
      = Except.error (SolveErr.backend ch "CuSparseSolver.cpp : 158",
          DevState.mk [d1, d2, d3, d4, d5] []))
    ∧ (cx ≠ 0 → CuSparseSolver.solve ⟨CuSparseSolverType.CHOLESKY, ord⟩ gfg x 0 0 0
        rowA colA valA (Except.ok d1) (Except.ok d2) (Except.ok d3) 0 0 0
        (Except.ok d4) (Except.ok d5) 0 0 (-1) cx
      = Except.error (SolveErr.backend cx "CuSparseSolver.cpp : 164",
          DevState.mk [d1, d2, d3, d4, d5] [])) := by
  refine ⟨?_, ?_, ?_, ?_, ?_, ?_⟩ <;> intro h <;>
    simp [CuSparseSolver.solve, solveDevice, EigenSparseToCuSparseTranspose,
      checkCUDAError, checkCuSolverError, checkCuSparseError,
      devAlloc, devFree, DevState.init, h]

/-- C2 witness: the amended theorem applied at a concrete failing Cholesky
status. -/
theorem solve_external_error_wrapped_no_release_witness :
    (7 : Nat) ≠ 0
    ∧ CuSparseSolver.solve ⟨CuSparseSolverType.CHOLESKY, []⟩ [] [] 0 0 0
        1001 1002 1003 (Except.ok 10) (Except.ok 11) (Except.ok 12) 0 0 0
        (Except.ok 13) (Except.ok 14) 0 7 (-1) 0
      = Except.error (SolveErr.backend 7 "CuSparseSolver.cpp : 158",
          DevState.mk [10, 11, 12, 13, 14] []) :=
  ⟨by decide,
    (solve_external_error_wrapped_no_release [] [] [] 1001 1002 1003
      10 11 12 13 14 7 7 7 7 7 7).2.2.2.2.1 (by decide)⟩

/-- C3: in CHOLESKY mode with every external call succeeding, if the
singularity index returned by the Cholesky primitive is not the sentinel -1
then `solve` throws a fatal error carrying that index and returns no result
mapping, and each of the five device buffers allocated in the call has
already been released (the frees of lines 167-171 precede the check of line
173); if the index is -1, `solve` returns the remapped result mapping. -/
theorem solve_singularity_handling (ord : List Key) (gfg : FactorGraph) (x : List ℚ)
    (rowA colA valA d1 d2 d3 d4 d5 : Nat) (sing : Int) :
    (sing ≠ -1 →
      CuSparseSolver.solve ⟨CuSparseSolverType.CHOLESKY, ord⟩ gfg x 0 0 0
          rowA colA valA (Except.ok d1) (Except.ok d2) (Except.ok d3) 0 0 0
          (Except.ok d4) (Except.ok d5) 0 0 sing 0
        = Except.error (SolveErr.singular sing,
            DevState.mk [d1, d2, d3, d4, d5] [d3, d1, d2, d5, d4])
      ∧ ∀ a ∈ [d1, d2, d3, d4, d5], a ∈ [d3, d1, d2, d5, d4])
    ∧ (sing = -1 →
      CuSparseSolver.solve ⟨CuSparseSolverType.CHOLESKY, ord⟩ gfg x 0 0 0
          rowA colA valA (Except.ok d1) (Except.ok d2) (Except.ok d3) 0 0 0
          (Except.ok d4) (Except.ok d5) 0 0 sing 0
        = Except.ok (remapModel gfg ord x,
            DevState.mk [d1, d2, d3, d4, d5] [d3, d1, d2, d5, d4])) := by
  constructor
  · intro h
    constructor
    · simp [CuSparseSolver.solve, solveDevice, EigenSparseToCuSparseTranspose,
        checkCUDAError, checkCuSolverError, checkCuSparseError,
        devAlloc, devFree, DevState.init, h]
    · intro a ha
      simp only [List.mem_cons, List.not_mem_nil, or_false] at ha ⊢
      tauto
  · intro h
    subst h
    simp [CuSparseSolver.solve, solveDevice, EigenSparseToCuSparseTranspose,
      checkCUDAError, checkCuSolverError, checkCuSparseError,
      devAlloc, devFree, DevState.init]

/-- C3 witness: the theorem applied at a concrete singular index 5 on a
concrete graph. -/
theorem solve_singularity_handling_witness :
    (5 : Int) ≠ -1
    ∧ CuSparseSolver.solve ⟨CuSparseSolverType.CHOLESKY, [0]⟩ [some [(0, 1)]] [9] 0 0 0
        1001 1002 1003 (Except.ok 10) (Except.ok 11) (Except.ok 12) 0 0 0
        (Except.ok 13) (Except.ok 14) 0 0 5 0
      = Except.error (SolveErr.singular 5,
          DevState.mk [10, 11, 12, 13, 14] [12, 10, 11, 14, 13]) :=
  ⟨by decide,
    ((solve_singularity_handling [0] [some [(0, 1)]] [9]
      1001 1002 1003 10 11 12 13 14 5).1 (by decide)).1⟩

theorem mapFind_mapSet (m : List (Key × Nat)) (k q : Key) (v : Nat) :
    mapFind (mapSet m k v) q = if q = k then some v else mapFind m q := by
  induction m with
  | nil => simp [mapSet, mapFind]
  | cons kv rest ih =>
      obtain ⟨k0, v0⟩ := kv
      by_cases hk : k = k0
      · subst hk
        by_cases hq : q = k <;> simp [mapSet, mapFind, hq]
      · by_cases hq : q = k0
        · subst hq
          have hne : q ≠ k := fun h => hk h.symm
          simp [mapSet, mapFind, hk, hne]
        · simp [mapSet, mapFind, hk, hq, ih]

theorem mapGetD_fst (m : List (Key × Nat)) (k : Key) :
    (mapGetD m k).1 = (mapFind m k).getD 0 := by
  unfold mapGetD
  cases h : mapFind m k <;> simp [h]

theorem mapFind_mapGetD (m : List (Key × Nat)) (k q : Key) :
    mapFind (mapGetD m k).2 q
      = if q = k ∧ mapFind m k = none then some 0 else mapFind m q := by
  unfold mapGetD
  cases h : mapFind m k with
  | some v => simp [h]
  | none =>
      simp only
      rw [mapFind_mapSet]
      by_cases hq : q = k
      · subst hq
        simp [h]
      · simp [hq]

theorem mapFind_mapGetD_getD (m : List (Key × Nat)) (k q : Key) :
    (mapFind (mapGetD m k).2 q).getD 0 = (mapFind m q).getD 0 := by
  rw [mapFind_mapGetD]
  by_cases hq : q = k
  · subst hq
    cases h : mapFind m q <;> simp [h]
  · simp [hq]

theorem mapFind_isSome_iff_mem (m : List (Key × Nat)) (q : Key) :
    (mapFind m q).isSome ↔ q ∈ keysOf m := by
  induction m with
  | nil => simp [mapFind, keysOf]
  | cons kv rest ih =>
      obtain ⟨k0, v0⟩ := kv
      simp only [keysOf] at ih ⊢
      by_cases hq : q = k0
      · subst hq
        simp [mapFind]
      · simp [mapFind, hq, ih]

theorem mem_keysOf_mapSet (m : List (Key × Nat)) (k v q) :
    q ∈ keysOf (mapSet m k v) ↔ q = k ∨ q ∈ keysOf m := by
  induction m with
  | nil => simp [mapSet, keysOf]
  | cons kv rest ih =>
      obtain ⟨k0, v0⟩ := kv
      by_cases hk : k = k0
      · subst hk
        have hset : mapSet ((k, v0) :: rest) k v = (k, v) :: rest := by
          simp [mapSet]
        rw [hset]
        simp only [keysOf, List.map_cons, List.mem_cons]
        tauto
      · simp only [mapSet, if_neg hk, keysOf, List.map_cons, List.mem_cons]
        simp only [keysOf] at ih
        rw [ih]
        tauto

theorem nodup_keysOf_mapSet (m : List (Key × Nat)) (k : Key) (v : Nat)
    (h : (keysOf m).Nodup) : (keysOf (mapSet m k v)).Nodup := by
  induction m with
  | nil => simp [mapSet, keysOf]
  | cons kv rest ih =>
      obtain ⟨k0, v0⟩ := kv
      simp only [keysOf, List.map_cons, List.nodup_cons] at h
      by_cases hk : k = k0
      · subst hk
        have hset : mapSet ((k, v0) :: rest) k v = (k, v) :: rest := by
          simp [mapSet]
        rw [hset]
        simp only [keysOf, List.map_cons, List.nodup_cons]
        exact h
      · have h1 : (keysOf (mapSet rest k v)).Nodup := ih h.2
        simp only [mapSet, if_neg hk, keysOf, List.map_cons, List.nodup_cons]
        constructor
        · intro hmem
          rcases (mem_keysOf_mapSet rest k v k0).mp
              (by simpa [keysOf] using hmem) with h2 | h2
          · exact hk h2.symm
          · exact h.1 (by simpa [keysOf] using h2)
        · simpa [keysOf] using h1

theorem colIndexLoop_cols_not_mem (ks : List Key) :
    ∀ (k : Key), k ∉ ks → ∀ (cur : Nat) (cols dims : List (Key × Nat)),
      mapFind (colIndexLoop ks cur cols dims).1 k = mapFind cols k := by
  induction ks with
  | nil => intro k _ cur cols dims; rfl
  | cons k0 rest ih =>
      intro k hk cur cols dims
      simp only [List.mem_cons, not_or] at hk
      simp only [colIndexLoop]
      rw [ih k hk.2, mapFind_mapSet, if_neg hk.1]

theorem colIndexLoop_cols_get (ks : List Key) :
    ∀ (cur : Nat) (cols dims : List (Key × Nat)), ks.Nodup →
    ∀ (i : Nat) (hi : i < ks.length),
      mapFind (colIndexLoop ks cur cols dims).1 (ks.get ⟨i, hi⟩)
        = some (cur + ((ks.take i).map (fun q => (mapFind dims q).getD 0)).sum) := by
  induction ks with
  | nil => intro _ _ _ _ i hi; exact absurd hi (Nat.not_lt_zero i)
  | cons k0 rest ih =>
      intro cur cols dims hnd i hi
      obtain ⟨hk0, hrest⟩ := List.nodup_cons.mp hnd
      cases i with
      | zero =>
          simp only [colIndexLoop, List.get]
          rw [colIndexLoop_cols_not_mem rest k0 hk0, mapFind_mapSet, if_pos rfl]
          simp
      | succ i =>
          have hi' : i < rest.length := Nat.lt_of_succ_lt_succ hi
          simp only [colIndexLoop, List.get]
          rw [ih (cur + (mapGetD dims k0).1) (mapSet cols k0 cur)
            (mapGetD dims k0).2 hrest i hi']
          have hfun : (fun q => (mapFind (mapGetD dims k0).2 q).getD 0)
              = fun q => (mapFind dims q).getD 0 :=
            funext (fun q => mapFind_mapGetD_getD dims k0 q)
          rw [hfun, mapGetD_fst, List.take_succ_cons, List.map_cons, List.sum_cons,
            Nat.add_assoc]

theorem colIndexLoop_dims_find (ks : List Key) :
    ∀ (cur : Nat) (cols dims : List (Key × Nat)) (q : Key),
      mapFind (colIndexLoop ks cur cols dims).2 q
        = if q ∈ ks ∧ mapFind dims q = none then some 0 else mapFind dims q := by
  induction ks with
  | nil => intro _ _ dims q; simp [colIndexLoop]
  | cons k0 rest ih =>
      intro cur cols dims q
      simp only [colIndexLoop]
      rw [ih]
      rw [mapFind_mapGetD]
      by_cases hq : q = k0
      · subst hq
        cases h : mapFind dims q with
        | some v => simp [h]
        | none => simp [h]
      · cases h : mapFind dims q with
        | some v => simp [h, hq]
        | none => simp [h, hq, List.mem_cons]

theorem colIndexLoop_dims_getD (ks : List Key) (cur : Nat)
    (cols dims : List (Key × Nat)) (q : Key) :
    (mapFind (colIndexLoop ks cur cols dims).2 q).getD 0
      = (mapFind dims q).getD 0 := by
  rw [colIndexLoop_dims_find]
  by_cases hmem : q ∈ ks ∧ mapFind dims q = none
  · rw [if_pos hmem, hmem.2]
    rfl
  · rw [if_neg hmem]

theorem keysOf_colIndexLoop_dims (ks : List Key) :
    ∀ (cur : Nat) (cols dims : List (Key × Nat)) (q : Key),
      q ∈ keysOf (colIndexLoop ks cur cols dims).2 ↔ q ∈ ks ∨ q ∈ keysOf dims := by
  intro cur cols dims q
  have h1 := mapFind_isSome_iff_mem (colIndexLoop ks cur cols dims).2 q
  have h2 := mapFind_isSome_iff_mem dims q
  rw [← h1, ← h2, colIndexLoop_dims_find]
  by_cases hmem : q ∈ ks ∧ mapFind dims q = none
  · rw [if_pos hmem]
    simp [hmem.1]
  · rw [if_neg hmem]
    rw [not_and_or] at hmem
    rcases hmem with hks | hfind
    · simp [hks]
    · have : (mapFind dims q).isSome := by
        cases h : mapFind dims q
        · exact absurd h hfind
        · rfl
      simp [this]

theorem nodup_keysOf_mapGetD (m : List (Key × Nat)) (k : Key)
    (h : (keysOf m).Nodup) : (keysOf (mapGetD m k).2).Nodup := by
  unfold mapGetD
  cases hf : mapFind m k with
  | some v => simpa using h
  | none => simpa using nodup_keysOf_mapSet m k 0 h

theorem nodup_keysOf_colIndexLoop_dims (ks : List Key) :
    ∀ (cur : Nat) (cols dims : List (Key × Nat)),
      (keysOf dims).Nodup → (keysOf (colIndexLoop ks cur cols dims).2).Nodup := by
  induction ks with
  | nil => intro _ _ _ h; exact h
  | cons k0 rest ih =>
      intro cur cols dims h
      simp only [colIndexLoop]
      exact ih _ _ _ (nodup_keysOf_mapGetD dims k0 h)

theorem nodup_keysOf_recordFactor (f : Factor) :
    ∀ (m : List (Key × Nat)), (keysOf m).Nodup → (keysOf (recordFactor m f)).Nodup := by
  induction f with
  | nil => intro m h; exact h
  | cons kd rest ih =>
      intro m h
      exact ih _ (nodup_keysOf_mapSet m kd.1 kd.2 h)

theorem nodup_keysOf_buildDimsFrom (gfg : FactorGraph) :
    ∀ (m : List (Key × Nat)), (keysOf m).Nodup → (keysOf (buildDimsFrom m gfg)).Nodup := by
  induction gfg with
  | nil => intro m h; exact h
  | cons f rest ih =>
      intro m h
      cases f with
      | none => exact ih m h
      | some f0 => exact ih _ (nodup_keysOf_recordFactor f0 m h)

theorem nodup_keysOf_buildDims (gfg : FactorGraph) : (keysOf (buildDims gfg)).Nodup := by
  have : (keysOf ([] : List (Key × Nat))).Nodup := by simp [keysOf]
  exact nodup_keysOf_buildDimsFrom gfg [] this

theorem sum_map_take_succ (ks : List Key) (f : Key → Nat) :
    ∀ (i : Nat) (hi : i < ks.length),
      ((ks.take (i + 1)).map f).sum
        = ((ks.take i).map f).sum + f (ks.get ⟨i, hi⟩) := by
  induction ks with
  | nil => intro i hi; exact absurd hi (Nat.not_lt_zero i)
  | cons k0 rest ih =>
      intro i hi
      cases i with
      | zero => simp
      | succ i =>
          have hi' : i < rest.length := Nat.lt_of_succ_lt_succ hi
          simp only [List.take_succ_cons, List.map_cons, List.sum_cons, List.get_cons_succ]
          rw [ih i hi', Nat.add_assoc]

theorem sum_take_le_sum_take (L : List Nat) (i j : Nat) (h : i ≤ j) :
    (L.take i).sum ≤ (L.take j).sum := by
  have h1 : (L.take j).take i = L.take i := by
    rw [List.take_take, Nat.min_eq_left h]
  calc (L.take i).sum = ((L.take j).take i).sum := by rw [h1]
    _ ≤ ((L.take j).take i).sum + ((L.take j).drop i).sum := Nat.le_add_right _ _
    _ = (L.take j).sum := by rw [← List.sum_append, List.take_append_drop]

theorem range'_split (a : Nat) : ∀ (s b : Nat),
    List.range' s (a + b) = List.range' s a ++ List.range' (s + a) b := by
  induction a with
  | zero => intro s b; simp
  | succ a ih =>
      intro s b
      have h1 : a + 1 + b = (a + b) + 1 := by omega
      rw [h1, List.range'_succ, List.range'_succ, ih (s + 1) b, List.cons_append]
      have h2 : s + 1 + a = s + (a + 1) := by omega
      rw [h2]

theorem chunksFrom_flatten_range' (ds : List Nat) :
    ∀ (s : Nat),
      (chunksFrom (fun a b => List.range' a b) ds s).flatten = List.range' s ds.sum := by
  induction ds with
  | nil => intro s; simp [chunksFrom]
  | cons d ds ih =>
      intro s
      simp only [chunksFrom, List.flatten_cons, ih, List.sum_cons]
      rw [range'_split d s ds.sum]

theorem map_eq_chunksFrom {α : Type} (chunk : Nat → Nat → List α) (g : Key → Nat)
    (f : Key → List α) (ks : List Key) :
    ∀ (s : Nat),
      (∀ (i : Nat) (hi : i < ks.length),
        f (ks.get ⟨i, hi⟩) = chunk (s + ((ks.take i).map g).sum) (g (ks.get ⟨i, hi⟩))) →
      ks.map f = chunksFrom chunk (ks.map g) s := by
  induction ks with
  | nil => intro s _; rfl
  | cons k0 rest ih =>
      intro s hyp
      simp only [List.map_cons, chunksFrom]
      congr 1
      · have h0 := hyp 0 (Nat.succ_pos _)
        simpa using h0
      · apply ih
        intro i hi
        have h1 := hyp (i + 1) (Nat.succ_lt_succ hi)
        rw [List.take_succ_cons, List.map_cons, List.sum_cons, ← Nat.add_assoc] at h1
        simpa using h1

theorem chunksFrom_flatten_vecSegment (x : List ℚ) (ds : List Nat) :
    ∀ (s : Nat), s + ds.sum = x.length →
      (chunksFrom (fun a b => vecSegment x a b) ds s).flatten = x.drop s := by
  induction ds with
  | nil =>
      intro s h
      simp only [List.sum_nil, Nat.add_zero] at h
      simp only [chunksFrom, List.flatten_nil]
      rw [h, List.drop_length]
  | cons d ds ih =>
      intro s h
      simp only [List.sum_cons] at h
      simp only [chunksFrom, List.flatten_cons]
      rw [ih (s + d) (by omega)]
      have h2 : (x.drop s).drop d = x.drop (s + d) := by
        rw [List.drop_drop, Nat.add_comm]
      rw [← h2]
      show (x.drop s).take d ++ (x.drop s).drop d = x.drop s
      exact List.take_append_drop d (x.drop s)

/-- C6: for every dimension map and every duplicate-free ordering, the
column-offset map built by the loop of lines 194-200 is the prefix sum of
the block dimensions in ordering order: the i-th ordering key is mapped to
the sum of the dimensions of the keys before it (so the first key gets 0 and
each subsequent key gets the previous offset plus the previous key's
dimension), the offsets are monotonically nondecreasing, and the half-open
blocks `[offset, offset + dim)` laid out over the ordering partition
`[0, totalColumns)` in order with no gaps or overlaps. -/
theorem columnIndices_prefix_sum (dims0 : List (Key × Nat)) (ordering : List Key)
    (hnd : ordering.Nodup) :
    (∀ (i : Nat) (hi : i < ordering.length),
      mapFind (colIndexLoop ordering 0 [] dims0).1 (ordering.get ⟨i, hi⟩)
        = some (((ordering.take i).map (fun q => (mapFind dims0 q).getD 0)).sum))
    ∧ (∀ (i : Nat) (hi : i < ordering.length) (hi1 : i + 1 < ordering.length),
      mapFind (colIndexLoop ordering 0 [] dims0).1 (ordering.get ⟨i + 1, hi1⟩)
        = some (((ordering.take i).map (fun q => (mapFind dims0 q).getD 0)).sum
            + (mapFind dims0 (ordering.get ⟨i, hi⟩)).getD 0))
    ∧ (∀ (i j : Nat), i ≤ j →
      ((ordering.take i).map (fun q => (mapFind dims0 q).getD 0)).sum
        ≤ ((ordering.take j).map (fun q => (mapFind dims0 q).getD 0)).sum)
    ∧ ((ordering.map (fun k =>
        List.range' ((mapFind (colIndexLoop ordering 0 [] dims0).1 k).getD 0)
          ((mapFind dims0 k).getD 0))).flatten
      = List.range ((ordering.map (fun q => (mapFind dims0 q).getD 0)).sum)) := by
  have hget : ∀ (i : Nat) (hi : i < ordering.length),
      mapFind (colIndexLoop ordering 0 [] dims0).1 (ordering.get ⟨i, hi⟩)
        = some (((ordering.take i).map (fun q => (mapFind dims0 q).getD 0)).sum) := by
    intro i hi
    rw [colIndexLoop_cols_get ordering 0 [] dims0 hnd i hi, Nat.zero_add]
  refine ⟨hget, ?_, ?_, ?_⟩
  · intro i hi hi1
    rw [hget (i + 1) hi1, sum_map_take_succ ordering _ i hi]
  · intro i j hij
    have h1 : ∀ (n : Nat),
        ((ordering.take n).map (fun q => (mapFind dims0 q).getD 0)).sum
          = ((ordering.map (fun q => (mapFind dims0 q).getD 0)).take n).sum := by
      intro n
      rw [List.map_take]
    rw [h1 i, h1 j]
    exact sum_take_le_sum_take _ i j hij
  · have hmap := map_eq_chunksFrom (fun a b => List.range' a b)
      (fun q => (mapFind dims0 q).getD 0)
      (fun k => List.range' ((mapFind (colIndexLoop ordering 0 [] dims0).1 k).getD 0)
        ((mapFind dims0 k).getD 0)) ordering 0 ?_
    · rw [hmap, chunksFrom_flatten_range', List.range_eq_range']
    · intro i hi
      have h2 := hget i hi
      simp only [h2, Option.getD_some, Nat.zero_add]

/-- C6 witness: the theorem applied to the dimension map `{0 ↦ 2, 1 ↦ 3}`
and the ordering `[0, 1]`. -/
theorem columnIndices_prefix_sum_witness :
    ([0, 1] : List Key).Nodup
    ∧ ((∀ (i : Nat) (hi : i < ([0, 1] : List Key).length),
      mapFind (colIndexLoop [0, 1] 0 [] [(0, 2), (1, 3)]).1 (([0, 1] : List Key).get ⟨i, hi⟩)
        = some ((((([0, 1] : List Key)).take i).map
            (fun q => (mapFind [(0, 2), (1, 3)] q).getD 0)).sum))
    ∧ (∀ (i : Nat) (hi : i < ([0, 1] : List Key).length)
        (hi1 : i + 1 < ([0, 1] : List Key).length),
      mapFind (colIndexLoop [0, 1] 0 [] [(0, 2), (1, 3)]).1 (([0, 1] : List Key).get ⟨i + 1, hi1⟩)
        = some ((((([0, 1] : List Key)).take i).map
            (fun q => (mapFind [(0, 2), (1, 3)] q).getD 0)).sum
            + (mapFind [(0, 2), (1, 3)] (([0, 1] : List Key).get ⟨i, hi⟩)).getD 0))
    ∧ (∀ (i j : Nat), i ≤ j →
      ((([0, 1] : List Key).take i).map (fun q => (mapFind [(0, 2), (1, 3)] q).getD 0)).sum
        ≤ ((([0, 1] : List Key).take j).map (fun q => (mapFind [(0, 2), (1, 3)] q).getD 0)).sum)
    ∧ ((([0, 1] : List Key).map (fun k =>
        List.range' ((mapFind (colIndexLoop [0, 1] 0 [] [(0, 2), (1, 3)]).1 k).getD 0)
          ((mapFind [(0, 2), (1, 3)] k).getD 0))).flatten
      = List.range ((([0, 1] : List Key).map
          (fun q => (mapFind [(0, 2), (1, 3)] q).getD 0)).sum))) :=
  ⟨by decide, columnIndices_prefix_sum [(0, 2), (1, 3)] [0, 1] (by decide)⟩

theorem orDefault_none (o : Option Nat) : orDefault o none = o := by
  cases o <;> rfl

theorem orDefault_assoc (a b c : Option Nat) :
    orDefault (orDefault a b) c = orDefault a (orDefault b c) := by
  cases a <;> cases b <;> rfl

theorem lastOf_append (a b : List (Key × Nat)) (q : Key) :
    lastOf (a ++ b) q = orDefault (lastOf b q) (lastOf a q) := by
  induction a with
  | nil =>
      rw [List.nil_append, show lastOf [] q = none from rfl, orDefault_none]
  | cons kv rest ih =>
      obtain ⟨k0, v0⟩ := kv
      rw [List.cons_append]
      cases h : lastOf b q <;> cases h2 : lastOf rest q <;>
        simp [lastOf, ih, h, h2, orDefault]

theorem mapFind_recordFactor (f : Factor) :
    ∀ (m : List (Key × Nat)) (q : Key),
      mapFind (recordFactor m f) q = orDefault (lastOf f q) (mapFind m q) := by
  induction f with
  | nil => intro m q; rfl
  | cons kd rest ih =>
      intro m q
      obtain ⟨k0, v0⟩ := kd
      show mapFind (recordFactor (mapSet m k0 v0) rest) q = _
      rw [ih]
      cases h : lastOf rest q with
      | some w => simp [lastOf, h, orDefault]
      | none =>
          rw [mapFind_mapSet]
          by_cases hq : q = k0
          · subst hq
            simp [lastOf, h, orDefault]
          · simp [lastOf, h, orDefault, hq]

theorem mapFind_buildDimsFrom (gfg : FactorGraph) :
    ∀ (m : List (Key × Nat)) (q : Key),
      mapFind (buildDimsFrom m gfg) q
        = orDefault (lastOf (reportedPairs gfg) q) (mapFind m q) := by
  induction gfg with
  | nil => intro m q; rfl
  | cons f rest ih =>
      intro m q
      cases f with
      | none =>
          show mapFind (buildDimsFrom m rest) q = _
          rw [ih]
          rfl
      | some f0 =>
          show mapFind (buildDimsFrom (recordFactor m f0) rest) q = _
          rw [ih, mapFind_recordFactor]
          rw [show reportedPairs (some f0 :: rest) = f0 ++ reportedPairs rest from rfl]
          rw [lastOf_append, orDefault_assoc]

theorem lastOf_eq_filter_getLast (l : List (Key × Nat)) (k : Key) :
    lastOf l k = ((l.filter (fun kd => kd.1 = k)).getLast?).map Prod.snd := by
  induction l with
  | nil => rfl
  | cons kd rest ih =>
      obtain ⟨k0, v0⟩ := kd
      by_cases hk : k0 = k
      · subst hk
        have hf : ((k0, v0) :: rest).filter (fun kd => kd.1 = k0)
            = (k0, v0) :: rest.filter (fun kd => kd.1 = k0) := by
          simp [List.filter]
        rw [hf]
        cases hrest : rest.filter (fun kd => kd.1 = k0) with
        | nil =>
            have h1 : lastOf rest k0 = none := by rw [ih, hrest]; rfl
            simp [lastOf, h1]
        | cons a as =>
            have h2 : ((k0, v0) :: a :: as).getLast? = (a :: as).getLast? :=
              List.getLast?_cons_cons
            rw [h2, ← hrest, ← ih]
            have h3 : lastOf rest k0 ≠ none := by
              rw [ih, hrest]
              intro hcon
              rw [Option.map_eq_none'] at hcon
              exact (List.cons_ne_nil a as) (List.getLast?_eq_none_iff.mp hcon)
            cases h4 : lastOf rest k0 with
            | none => exact absurd h4 h3
            | some w => simp [lastOf, h4]
      · have hf : ((k0, v0) :: rest).filter (fun kd => kd.1 = k)
            = rest.filter (fun kd => kd.1 = k) := by
          simp [List.filter, hk]
        rw [hf, ← ih]
        cases h4 : lastOf rest k with
        | some w => simp [lastOf, h4]
        | none =>
            have hne : ¬(k = k0) := fun h => hk h.symm
            simp [lastOf, h4, hne]

/-- C8: the variable dimension map is built by scanning all factors in graph
order (skipping null factors) and recording each factor's reported dimension
for each of its keys; no disagreement check is performed (the scan is total
and never raises an error), and the recorded value for `k` is exactly the
dimension of the last `(key, dim)` report for `k` in scan order: the last
writer wins. -/
theorem dims_scan_last_writer_wins (gfg : FactorGraph) (k : Key) :
    mapFind (buildDims gfg) k
      = (((reportedPairs gfg).filter (fun kd => kd.1 = k)).getLast?).map Prod.snd := by
  have h1 : mapFind (buildDims gfg) k
      = orDefault (lastOf (reportedPairs gfg) k) (mapFind [] k) :=
    mapFind_buildDimsFrom gfg [] k
  rw [h1, show mapFind [] k = none from rfl, orDefault_none, lastOf_eq_filter_getLast]

theorem lookupSeg_map (m : List (Key × Nat)) (g : Key → Nat → List ℚ) (k : Key) :
    lookupSeg (m.map (fun kd => (kd.1, g kd.1 kd.2))) k
      = (mapFind m k).map (fun v => g k v) := by
  induction m with
  | nil => rfl
  | cons kv rest ih =>
      obtain ⟨k0, v0⟩ := kv
      by_cases hq : k = k0
      · subst hq
        simp [lookupSeg, mapFind]
      · simp [lookupSeg, mapFind, hq, ih]

/-- C7 (amended): for a duplicate-free ordering covering every referenced
variable and a flat solution of total length, the result mapping has
duplicate-free keys and contains exactly one entry per key of the ordering —
not only per referenced variable: because `dims[key]` in the column-offset
loop default-inserts a zero entry, ordering keys referenced by no factor are
also present, with an empty segment.  Each ordering key's entry is the slice
of the flat vector at that key's column offset with length equal to its
recorded dimension, and concatenating the segments in ordering order
reproduces the flat solution vector. -/
theorem remap_result_segments (gfg : FactorGraph) (ordering : List Key) (x : List ℚ)
    (hnd : ordering.Nodup)
    (href : ∀ k, k ∈ keysOf (buildDims gfg) → k ∈ ordering)
    (hx : x.length = (ordering.map (fun q => (mapFind (buildDims gfg) q).getD 0)).sum) :
    ((remapModel gfg ordering x).map Prod.fst).Nodup
    ∧ (∀ k, (lookupSeg (remapModel gfg ordering x) k).isSome ↔ k ∈ ordering)
    ∧ (∀ (i : Nat) (hi : i < ordering.length),
        lookupSeg (remapModel gfg ordering x) (ordering.get ⟨i, hi⟩)
          = some (vecSegment x
              (((ordering.take i).map (fun q => (mapFind (buildDims gfg) q).getD 0)).sum)
              ((mapFind (buildDims gfg) (ordering.get ⟨i, hi⟩)).getD 0)))
    ∧ (∀ (i : Nat) (hi : i < ordering.length),
        (vecSegment x
            (((ordering.take i).map (fun q => (mapFind (buildDims gfg) q).getD 0)).sum)
            ((mapFind (buildDims gfg) (ordering.get ⟨i, hi⟩)).getD 0)).length
          = (mapFind (buildDims gfg) (ordering.get ⟨i, hi⟩)).getD 0)
    ∧ (∀ k, k ∈ ordering → mapFind (buildDims gfg) k = none →
        lookupSeg (remapModel gfg ordering x) k = some [])
    ∧ ((ordering.map
        (fun k => (lookupSeg (remapModel gfg ordering x) k).getD [])).flatten = x) := by
  have hseg : ∀ k, lookupSeg (remapModel gfg ordering x) k
      = (mapFind (colIndexLoop ordering 0 [] (buildDims gfg)).2 k).map
          (fun v => vecSegment x
            ((mapFind (colIndexLoop ordering 0 [] (buildDims gfg)).1 k).getD 0) v) := by
    intro k
    have h1 := lookupSeg_map (colIndexLoop ordering 0 [] (buildDims gfg)).2
      (fun a b => vecSegment x
        ((mapFind (colIndexLoop ordering 0 [] (buildDims gfg)).1 a).getD 0) b) k
    simpa [remapModel] using h1
  have hdimsome : ∀ k, k ∈ ordering →
      mapFind (colIndexLoop ordering 0 [] (buildDims gfg)).2 k
        = some ((mapFind (buildDims gfg) k).getD 0) := by
    intro k hk
    rw [colIndexLoop_dims_find]
    cases h : mapFind (buildDims gfg) k with
    | some v => simp [h]
    | none => simp [h, hk]
  have hcols : ∀ (i : Nat) (hi : i < ordering.length),
      (mapFind (colIndexLoop ordering 0 [] (buildDims gfg)).1
          (ordering.get ⟨i, hi⟩)).getD 0
        = ((ordering.take i).map (fun q => (mapFind (buildDims gfg) q).getD 0)).sum := by
    intro i hi
    rw [colIndexLoop_cols_get ordering 0 [] (buildDims gfg) hnd i hi,
      Option.getD_some, Nat.zero_add]
  have hc : ∀ (i : Nat) (hi : i < ordering.length),
      lookupSeg (remapModel gfg ordering x) (ordering.get ⟨i, hi⟩)
        = some (vecSegment x
            (((ordering.take i).map (fun q => (mapFind (buildDims gfg) q).getD 0)).sum)
            ((mapFind (buildDims gfg) (ordering.get ⟨i, hi⟩)).getD 0)) := by
    intro i hi
    rw [hseg, hdimsome _ (ordering.get_mem _ _)]
    simp only [Option.map_some']
    rw [hcols i hi]
  have hd : ∀ (i : Nat) (hi : i < ordering.length),
      (vecSegment x
          (((ordering.take i).map (fun q => (mapFind (buildDims gfg) q).getD 0)).sum)
          ((mapFind (buildDims gfg) (ordering.get ⟨i, hi⟩)).getD 0)).length
        = (mapFind (buildDims gfg) (ordering.get ⟨i, hi⟩)).getD 0 := by
    intro i hi
    have h1 := sum_map_take_succ ordering
      (fun q => (mapFind (buildDims gfg) q).getD 0) i hi
    have h2 : ((ordering.take (i + 1)).map
        (fun q => (mapFind (buildDims gfg) q).getD 0)).sum
        ≤ (ordering.map (fun q => (mapFind (buildDims gfg) q).getD 0)).sum := by
      rw [List.map_take]
      have h3 := sum_take_le_sum_take
        (ordering.map (fun q => (mapFind (buildDims gfg) q).getD 0)) (i + 1)
        (ordering.map (fun q => (mapFind (buildDims gfg) q).getD 0)).length
        (by rw [List.length_map]; omega)
      rwa [List.take_length] at h3
    have hxlen : ((ordering.take i).map
          (fun q => (mapFind (buildDims gfg) q).getD 0)).sum
        + (mapFind (buildDims gfg) (ordering.get ⟨i, hi⟩)).getD 0 ≤ x.length := by
      rw [hx]
      omega
    simp only [vecSegment, List.length_take, List.length_drop]
    omega
  have he : ∀ k, k ∈ ordering → mapFind (buildDims gfg) k = none →
      lookupSeg (remapModel gfg ordering x) k = some [] := by
    intro k hk hnone
    rw [hseg, hdimsome k hk, hnone]
    simp [vecSegment]
  have ha : (remapModel gfg ordering x).map Prod.fst
      = keysOf (colIndexLoop ordering 0 [] (buildDims gfg)).2 := by
    simp [remapModel, keysOf, List.map_map]
  have hb : ∀ k, (lookupSeg (remapModel gfg ordering x) k).isSome ↔ k ∈ ordering := by
    intro k
    rw [hseg]
    have h1 : ((mapFind (colIndexLoop ordering 0 [] (buildDims gfg)).2 k).map
        (fun v => vecSegment x
          ((mapFind (colIndexLoop ordering 0 [] (buildDims gfg)).1 k).getD 0) v)).isSome
        = (mapFind (colIndexLoop ordering 0 [] (buildDims gfg)).2 k).isSome := by
      cases mapFind (colIndexLoop ordering 0 [] (buildDims gfg)).2 k <;> rfl
    rw [h1, mapFind_isSome_iff_mem, keysOf_colIndexLoop_dims]
    constructor
    · rintro (h | h)
      · exact h
      · exact href k h
    · exact fun h => Or.inl h
  have hf : (ordering.map
      (fun k => (lookupSeg (remapModel gfg ordering x) k).getD [])).flatten = x := by
    have harg : ∀ (i : Nat) (hi : i < ordering.length),
        (fun k => (lookupSeg (remapModel gfg ordering x) k).getD [])
            (ordering.get ⟨i, hi⟩)
          = (fun a b => vecSegment x a b)
              (0 + ((ordering.take i).map
                (fun q => (mapFind (buildDims gfg) q).getD 0)).sum)
              ((fun q => (mapFind (buildDims gfg) q).getD 0)
                (ordering.get ⟨i, hi⟩)) := by
      intro i hi
      simp only [hc i hi, Option.getD_some, Nat.zero_add]
    have hmap := map_eq_chunksFrom (fun a b => vecSegment x a b)
      (fun q => (mapFind (buildDims gfg) q).getD 0)
      (fun k => (lookupSeg (remapModel gfg ordering x) k).getD []) ordering 0 harg
    rw [hmap, chunksFrom_flatten_vecSegment x _ 0 (by simpa using hx.symm),
      List.drop_zero]
  refine ⟨?_, hb, hc, hd, he, hf⟩
  rw [ha]
  exact nodup_keysOf_colIndexLoop_dims ordering 0 [] (buildDims gfg)
    (nodup_keysOf_buildDims gfg)

/-- C7 counterexample: for the graph with one factor referencing only key 0
(dimension 1), the ordering `[0, 1]` and the flat solution `[5]`, key 1 is
in the ordering and referenced by no factor, yet the result of the remap
contains an entry for key 1 (with an empty segment) — refuting the claim
that variables appearing in the ordering but in no factor are absent from
the result. -/
theorem remap_ordering_only_key_present :
    mapFind (buildDims [some [(0, 1)]]) 1 = none
    ∧ (1 : Key) ∈ ([0, 1] : List Key)
    ∧ lookupSeg (remapModel [some [(0, 1)]] [0, 1] [(5 : ℚ)]) 1 = some [] :=
  ⟨by decide, by decide, rfl⟩

/-- C7 witness: the amended theorem applied to a two-variable graph
(`x0` of dimension 2, `x1` of dimension 3), the ordering `[0, 1]` and the
flat solution `[1, 2, 3, 4, 5]`; the hypotheses are discharged by
computation and the ordering-order concatenation of the result's segments
reproduces the flat vector. -/
theorem remap_result_segments_witness :
    ([0, 1] : List Key).Nodup
    ∧ (∀ k, k ∈ keysOf (buildDims [some [(0, 2), (1, 3)]]) → k ∈ ([0, 1] : List Key))
    ∧ ([(1 : ℚ), 2, 3, 4, 5].length
        = (([0, 1] : List Key).map
            (fun q => (mapFind (buildDims [some [(0, 2), (1, 3)]]) q).getD 0)).sum)
    ∧ ((([0, 1] : List Key).map
        (fun k => (lookupSeg (remapModel [some [(0, 2), (1, 3)]] [0, 1]
            [(1 : ℚ), 2, 3, 4, 5]) k).getD [])).flatten = [(1 : ℚ), 2, 3, 4, 5]) :=
  ⟨by decide, by decide, by decide,
    (remap_result_segments [some [(0, 2), (1, 3)]] [0, 1] [(1 : ℚ), 2, 3, 4, 5]
      (by decide) (by decide) (by decide)).2.2.2.2.2⟩

theorem norm_scalarDiv_norm (p : Point3) (h : Point3.norm p ≠ 0) :
    Point3.norm (Point3.scalarDiv p (Point3.norm p)) = 1 := by
  have hS : 0 ≤ p.x ^ 2 + p.y ^ 2 + p.z ^ 2 := by positivity
  have hsq : Point3.norm p ^ 2 = p.x ^ 2 + p.y ^ 2 + p.z ^ 2 := Real.sq_sqrt hS
  have hkey : (p.x / Point3.norm p) ^ 2 + (p.y / Point3.norm p) ^ 2
      + (p.z / Point3.norm p) ^ 2 = 1 := by
    field_simp
    linarith [hsq]
  have hshow : Point3.norm (Point3.scalarDiv p (Point3.norm p))
      = Real.sqrt ((p.x / Point3.norm p) ^ 2 + (p.y / Point3.norm p) ^ 2
        + (p.z / Point3.norm p) ^ 2) := rfl
  rw [hshow, hkey, Real.sqrt_one]

/-- C9: every `Sphere2` value reachable through the public constructors
(default, copy, from-`Point3` with a nonzero-norm input) stores a point `p_`
of unit Euclidean norm; in particular the copy constructor (which
renormalizes) preserves the invariant. -/
theorem sphere2_unit_norm_invariant (s : Sphere2) (h : Sphere2.Constructed s) :
    Point3.norm s.p_ = 1 := by
  induction h with
  | defaultCtor =>
      have h1 : Point3.norm Sphere2.defaultSphere.p_
          = Real.sqrt ((1 : ℝ) ^ 2 + 0 ^ 2 + 0 ^ 2) := rfl
      rw [h1]
      norm_num
  | fromPoint p hp => exact norm_scalarDiv_norm p hp
  | copyCtor s hs ih =>
      have h1 : Point3.norm s.p_ ≠ 0 := by rw [ih]; norm_num
      exact norm_scalarDiv_norm s.p_ h1

/-- C9 witness: the default-constructed value is reachable and has unit
norm. -/
theorem sphere2_unit_norm_invariant_witness :
    Sphere2.Constructed Sphere2.defaultSphere
    ∧ Point3.norm Sphere2.defaultSphere.p_ = 1 :=
  ⟨Sphere2.Constructed.defaultCtor,
    sphere2_unit_norm_invariant Sphere2.defaultSphere Sphere2.Constructed.defaultCtor⟩

/-- C10: the from-`Point3` constructor divides by `p.norm()` with no guard:
at the zero input the divisor is `0` (the division is a division by zero),
while under the precondition that the input has nonzero norm the division is
well-defined and produces a stored point of unit norm (the constructor is
total in the model by construction). -/
theorem sphere2_ofPoint3_unguarded (p : Point3) (h : Point3.norm p ≠ 0) :
    Point3.norm (⟨0, 0, 0⟩ : Point3) = 0
    ∧ (Sphere2.ofPoint3 (⟨0, 0, 0⟩ : Point3)).p_
        = Point3.scalarDiv (⟨0, 0, 0⟩ : Point3) 0
    ∧ Point3.norm (Sphere2.ofPoint3 p).p_ = 1 := by
  have hz : Point3.norm (⟨0, 0, 0⟩ : Point3) = 0 := by
    have h1 : Point3.norm (⟨0, 0, 0⟩ : Point3)
        = Real.sqrt ((0 : ℝ) ^ 2 + 0 ^ 2 + 0 ^ 2) := rfl
    rw [h1]
    norm_num
  refine ⟨hz, ?_, norm_scalarDiv_norm p h⟩
  show Point3.scalarDiv (⟨0, 0, 0⟩ : Point3) (Point3.norm (⟨0, 0, 0⟩ : Point3))
      = Point3.scalarDiv (⟨0, 0, 0⟩ : Point3) 0
  rw [hz]

/-- C10 witness: the theorem applied at the unit input `(1, 0, 0)`, whose
norm is nonzero. -/
theorem sphere2_ofPoint3_unguarded_witness :
    Point3.norm (⟨1, 0, 0⟩ : Point3) ≠ 0
    ∧ Point3.norm (Sphere2.ofPoint3 (⟨1, 0, 0⟩ : Point3)).p_ = 1 := by
  have h1 : Point3.norm (⟨1, 0, 0⟩ : Point3) = 1 := by
    have h2 : Point3.norm (⟨1, 0, 0⟩ : Point3)
        = Real.sqrt ((1 : ℝ) ^ 2 + 0 ^ 2 + 0 ^ 2) := rfl
    rw [h2]
    norm_num
  have hne : Point3.norm (⟨1, 0, 0⟩ : Point3) ≠ 0 := by
    rw [h1]
    norm_num
  exact ⟨hne, (sphere2_ofPoint3_unguarded (⟨1, 0, 0⟩ : Point3) hne).2.2⟩
